import Mathlib

/-!
Verification of the credential/session authentication core of the
warrior-poets repository (src/encryption.py, src/database.py,
src/kalshi_api.py, src/yahoo_fantasy.py, src/wagers_server.py).

Modelling conventions:
* Credential strings are represented by their UTF-8 byte sequences
  (`List Nat`, each element < 256); Python's `str.encode('utf-8')` /
  `bytes.decode('utf-8')` round-trip is the identity on this
  representation, so it is elided.
* Time is an integer timeline (seconds); `datetime` values are `Int`.
* Library primitives that the source calls but does not define
  (the AES-256 block permutation from pycryptodome, `base64.b64encode`
  / `b64decode`, RSA-PSS signing from `cryptography`) are parameters
  packaged in `CryptoPrims`, constrained only by their documented
  contracts (block cipher inversion, base64 round-trip).
* Randomness (`os.urandom(16)` IVs, `secrets.token_urlsafe` tokens) and
  network-call outcomes are passed in as explicit arguments.
* Database tables are association lists of row structures; SQLAlchemy
  query/filter/first/count calls become `List.find?` / `List.filter` /
  `List.countP` on them.
-/

instance {ε α : Type} [DecidableEq ε] [DecidableEq α] :
    DecidableEq (Except ε α) := fun x y =>
  match x, y with
  | .ok a, .ok b =>
    if h : a = b then .isTrue (by rw [h])
    else .isFalse (by intro hc; cases hc; exact h rfl)
  | .error a, .error b =>
    if h : a = b then .isTrue (by rw [h])
    else .isFalse (by intro hc; cases hc; exact h rfl)
  | .ok _, .error _ => .isFalse (by intro hc; cases hc)
  | .error _, .ok _ => .isFalse (by intro hc; cases hc)

/-- A byte sequence: every element is < 256. -/
def IsBytes (bs : List Nat) : Prop := ∀ x ∈ bs, x < 256

instance (bs : List Nat) : Decidable (IsBytes bs) := by
  unfold IsBytes; infer_instance

/-- Bytewise XOR of two byte sequences (as used by CBC chaining). -/
def xorBytes (a b : List Nat) : List Nat := List.zipWith (fun x y => x ^^^ y) a b

/-- PKCS#7 padding to 16-byte blocks: `Crypto.Util.Padding.pad(data, AES.block_size)`.
Appends `n = 16 - len % 16` copies of the byte `n` (a full block when the
length is already a multiple of 16). -/
def pad (data : List Nat) : List Nat :=
  let n := 16 - data.length % 16
  data ++ List.replicate n n

/-- PKCS#7 unpadding: `Crypto.Util.Padding.unpad(data, AES.block_size)`.
Fails (`none`, modelling the raised `ValueError`) unless the input length is a
positive multiple of 16 and the last byte `n` satisfies `1 ≤ n ≤ 16` with the
last `n` bytes all equal to `n`. -/
def unpad (data : List Nat) : Option (List Nat) :=
  match data.getLast? with
  | none => none
  | some n =>
    if data.length % 16 = 0 ∧ 1 ≤ n ∧ n ≤ 16 ∧ n ≤ data.length ∧
        (data.drop (data.length - n)).all (· = n) then
      some (data.take (data.length - n))
    else none

/-- One pass of CBC-mode encryption, structurally recursive on a fuel bound
(any fuel ≥ the number of blocks gives the mode's value, since each step
consumes a block). -/
def cbcEncryptGo (E : List Nat → List Nat) : Nat → List Nat → List Nat → List Nat
  | 0, _, _ => []
  | fuel + 1, prev, pt =>
    if pt = [] then []
    else
      E (xorBytes prev (pt.take 16)) ++
        cbcEncryptGo E fuel (E (xorBytes prev (pt.take 16))) (pt.drop 16)

/-- CBC-mode encryption (`AES.new(key, AES.MODE_CBC, iv).encrypt`):
each 16-byte plaintext block is XORed with the previous ciphertext block
(initially the IV) and passed through the block cipher `E`. -/
def cbcEncrypt (E : List Nat → List Nat) (iv : List Nat) (pt : List Nat) :
    List Nat :=
  cbcEncryptGo E pt.length iv pt

/-- One pass of CBC-mode decryption, structurally recursive on a fuel bound. -/
def cbcDecryptGo (D : List Nat → List Nat) : Nat → List Nat → List Nat → List Nat
  | 0, _, _ => []
  | fuel + 1, prev, ct =>
    if ct = [] then []
    else
      xorBytes prev (D (ct.take 16)) ++
        cbcDecryptGo D fuel (ct.take 16) (ct.drop 16)

/-- CBC-mode decryption (`AES.new(key, AES.MODE_CBC, iv).decrypt`):
each ciphertext block is passed through the inverse block cipher `D` and
XORed with the previous ciphertext block (initially the IV). -/
def cbcDecrypt (D : List Nat → List Nat) (iv : List Nat) (ct : List Nat) :
    List Nat :=
  cbcDecryptGo D ct.length iv ct

/-- Library primitives used by `src/encryption.py` and not defined in the
repository: the AES-256 block permutation under the process-wide
`ENCRYPTION_KEY`, and base64 encoding/decoding. -/
structure CryptoPrims where
  aesEnc : List Nat → List Nat
  aesDec : List Nat → List Nat
  b64enc : List Nat → String
  b64dec : String → List Nat

/-- The documented contracts of those primitives: the block cipher is a
length-preserving, byte-preserving permutation of 16-byte blocks with
`aesDec` its inverse, and `b64dec` inverts `b64enc` on byte sequences. -/
structure CryptoPrims.Sound (P : CryptoPrims) : Prop where
  aes_len : ∀ b : List Nat, b.length = 16 → (P.aesEnc b).length = 16
  aes_bytes : ∀ b : List Nat, b.length = 16 → IsBytes b → IsBytes (P.aesEnc b)
  aes_inv : ∀ b : List Nat, b.length = 16 → P.aesDec (P.aesEnc b) = b
  b64_inv : ∀ bs : List Nat, IsBytes bs → P.b64dec (P.b64enc bs) = bs

/-- `encrypt_credential(plaintext, iv)` from src/encryption.py: pads the
plaintext, CBC-encrypts it under the process key with the given IV (in the
source a fresh `os.urandom(16)` when the caller passes none), and returns
`(ciphertext_base64, iv_base64)`. -/
def encrypt_credential (P : CryptoPrims) (plaintext : List Nat) (iv : List Nat) :
    String × String :=
  (P.b64enc (cbcEncrypt P.aesEnc iv (pad plaintext)), P.b64enc iv)

/-- `decrypt_credential(ciphertext_b64, iv_b64)` from src/encryption.py:
base64-decodes both, CBC-decrypts, and unpads; `none` models the
`ValueError` raised on invalid padding. The final
`plaintext.decode('utf-8')` is the identity under the byte-sequence
representation of strings and is elided; its failure path (a
`UnicodeDecodeError` when the unpadded bytes are not valid UTF-8) is NOT
modelled — no theorem below relies on decryption succeeding on such
plaintexts. -/
def decrypt_credential (P : CryptoPrims) (ciphertext_b64 iv_b64 : String) :
    Option (List Nat) :=
  unpad (cbcDecrypt P.aesDec (P.b64dec iv_b64) (P.b64dec ciphertext_b64))

/-! ## Database layer (src/database.py) -/

/-- Python truthiness test for an optional string (`if yahoo_email:` is false
for both `None` and the empty string). -/
def truthy : Option String → Bool
  | none => false
  | some s => s ≠ ""

/-- A row of the `users` table (`class User`). -/
structure UserRow where
  id : Nat
  yahoo_guid : String
  yahoo_email : Option String
  yahoo_name : Option String
deriving Repr, DecidableEq

/-- A row of the `kalshi_credentials` table (`class KalshiCredentials`). -/
structure KalshiCredRow where
  user_id : Nat
  encrypted_api_key : String
  encrypted_private_key : String
  encryption_iv : String
deriving Repr, DecidableEq

/-- A row of the `sessions` table (`class Session`). -/
structure SessionRow where
  user_id : Nat
  session_token : String
  expires_at : Int
deriving Repr, DecidableEq

/-- `get_or_create_user(yahoo_guid, yahoo_email, yahoo_name)` from
src/database.py. Looks up the first user with that guid; if found, updates
its email and name — but only when each supplied value is truthy (`if
yahoo_email:` / `if yahoo_name:`) — and returns it; otherwise inserts a new
row (its primary key, assigned by the database, is the `newId` argument).
Returns the user together with the new table state. -/
def get_or_create_user (users : List UserRow) (yahoo_guid : String)
    (yahoo_email yahoo_name : Option String) (newId : Nat) :
    UserRow × List UserRow :=
  match users.find? (fun u => u.yahoo_guid == yahoo_guid) with
  | some u =>
    let u' : UserRow :=
      { u with
        yahoo_email := if truthy yahoo_email then yahoo_email else u.yahoo_email,
        yahoo_name := if truthy yahoo_name then yahoo_name else u.yahoo_name }
    (u', users.map (fun v => if v.yahoo_guid == yahoo_guid then u' else v))
  | none =>
    let u : UserRow := ⟨newId, yahoo_guid, yahoo_email, yahoo_name⟩
    (u, users ++ [u])

/-- `create_session(user_id, expires_days)` from src/database.py: inserts a
row whose token is a fresh random value (`secrets.token_urlsafe(32)`, passed
in as `token`) and whose expiry is `now + expires_days` days. Returns the
token and the new table state. -/
def create_session (sessions : List SessionRow) (user_id : Nat)
    (token : String) (now : Int) (expires_days : Int := 30) :
    String × List SessionRow :=
  (token, sessions ++ [⟨user_id, token, now + expires_days * 86400⟩])

/-- `get_user_by_session(session_token)` from src/database.py: finds a
session row with that token whose `expires_at` is strictly after now; if
none, returns `none`; otherwise looks up the owning user row. -/
def get_user_by_session (users : List UserRow) (sessions : List SessionRow)
    (session_token : String) (now : Int) : Option UserRow :=
  match sessions.find?
      (fun s => s.session_token == session_token && decide (now < s.expires_at)) with
  | none => none
  | some s => users.find? (fun u => u.id == s.user_id)

/-- `save_kalshi_credentials(user_id, api_key, private_key)` from
src/database.py. Encrypts the API key with a fresh IV (`iv1`), then encrypts
the private key with `encrypt_credential(private_key)` — which, given no IV
argument, draws ANOTHER fresh IV (`iv2`) and whose base64 IV output the
source discards (`encrypted_private_key, _ = ...`). Deletes any existing
rows for the user and inserts one row storing only the first IV. -/
def save_kalshi_credentials (P : CryptoPrims) (creds : List KalshiCredRow)
    (user_id : Nat) (api_key private_key : List Nat) (iv1 iv2 : List Nat) :
    List KalshiCredRow :=
  let e1 := encrypt_credential P api_key iv1
  let e2 := encrypt_credential P private_key iv2
  (creds.filter (fun c => ¬ c.user_id == user_id)) ++
    [⟨user_id, e1.1, e2.1, e1.2⟩]

/-- `get_kalshi_credentials(user_id)` from src/database.py: finds the row
for the user (`.ok none` when absent) and decrypts both fields with the
stored IV; a decryption failure is the raised exception (`.error ()`). -/
def get_kalshi_credentials (P : CryptoPrims) (creds : List KalshiCredRow)
    (user_id : Nat) : Except Unit (Option (List Nat × List Nat)) :=
  match creds.find? (fun c => c.user_id == user_id) with
  | none => .ok none
  | some c =>
    match decrypt_credential P c.encrypted_api_key c.encryption_iv,
        decrypt_credential P c.encrypted_private_key c.encryption_iv with
    | some a, some p => .ok (some (a, p))
    | _, _ => .error ()

/-- `user_has_kalshi_credentials(user_id)` from src/database.py: counts the
rows for the user and returns whether the count is positive. -/
def user_has_kalshi_credentials (creds : List KalshiCredRow) (user_id : Nat) :
    Bool :=
  creds.countP (fun c => c.user_id == user_id) > 0

/-! ## Request signer (src/kalshi_api.py) -/

/-- `path.split('?')[0]`: the prefix of the path before the first `'?'`
(the whole path when it contains none). -/
def stripQuery (path : String) : String :=
  String.mk (path.data.takeWhile (fun c => c ≠ '?'))

/-- The canonical message built by `_create_signature` in src/kalshi_api.py:
`f"{timestamp}{method}{path_clean}"` where `path_clean = path.split('?')[0]`. -/
def createSignatureMessage (timestamp method path : String) : String :=
  timestamp ++ method ++ stripQuery path

/-- `_create_signature(timestamp, method, path)` from src/kalshi_api.py.
The RSA-PSS signing operation (`private_key.sign` with PSS padding,
MGF1(SHA-256), digest-length salt, SHA-256) followed by base64 encoding is
a library primitive, abstracted as the `sign` argument. -/
def create_signature (sign : String → String) (timestamp method path : String) :
    String :=
  sign (createSignatureMessage timestamp method path)

/-- `_get_auth_headers(method, path)` from src/kalshi_api.py: fails
(`none`, modelling the raised exception) when the API key id or the private
key is missing; otherwise returns the three headers, in source order, with
the freshly computed millisecond timestamp (`timestamp` argument). -/
def get_auth_headers (sign : String → String) (api_key_id : Option String)
    (has_private_key : Bool) (timestamp method path : String) :
    Option (List (String × String)) :=
  if ¬ truthy api_key_id ∨ ¬ has_private_key then none
  else
    some [("KALSHI-ACCESS-KEY", api_key_id.getD ""),
          ("KALSHI-ACCESS-SIGNATURE", create_signature sign timestamp method path),
          ("KALSHI-ACCESS-TIMESTAMP", timestamp)]

/-! ## Token refresher (src/yahoo_fantasy.py) -/

/-- The token state held by `YahooFantasyAPI`: `access_token`,
`refresh_token`, `token_expiry`. -/
structure RefresherState where
  access_token : Option String
  refresh_token : Option String
  token_expiry : Option Int
deriving Repr, DecidableEq

/-- `_is_token_valid()` from src/yahoo_fantasy.py: false when
`access_token` or `token_expiry` is missing (Python falsiness: `None` or the
empty string), otherwise `now < token_expiry - 5 minutes` (times in
seconds). -/
def is_token_valid (s : RefresherState) (now : Int) : Bool :=
  if ¬ truthy s.access_token ∨ s.token_expiry = none then false
  else
    match s.token_expiry with
    | none => false
    | some e => decide (now < e - 5 * 60)

/-- The provider's response to a refresh-token grant, as consumed by
`_refresh_access_token`: HTTP status, `data["access_token"]`,
`data.get("refresh_token", ...)` (`none` = field absent), and
`data["expires_in"]` (seconds). -/
structure RefreshResponse where
  status : Nat
  access_token : String
  refresh_token : Option String
  expires_in : Int
deriving Repr, DecidableEq

/-- `_refresh_access_token()` from src/yahoo_fantasy.py: on a non-200
response returns false with the state unchanged; on success stores the new
access token, keeps the old refresh token when the response omits one
(`data.get("refresh_token", self.refresh_token)`), and sets the expiry to
`now + expires_in`. -/
def refresh_access_token (s : RefresherState) (resp : RefreshResponse)
    (now : Int) : Bool × RefresherState :=
  if resp.status ≠ 200 then (false, s)
  else
    (true,
     { access_token := some resp.access_token,
       refresh_token :=
         match resp.refresh_token with
         | some v => some v
         | none => s.refresh_token,
       token_expiry := some (now + resp.expires_in) })

/-! ## OAuth callback (src/wagers_server.py) -/

/-- The outcome of the `/api/auth/yahoo/callback` route: a redirect to the
frontend carrying either an error code or the new session token. -/
inductive CallbackResult where
  | errorRedirect (err : String)
  | success (token : String)
deriving Repr, DecidableEq

/-- `yahoo_callback()` from src/wagers_server.py, with each outbound HTTP
call replaced by its outcome:
* `error` / `code` — the query parameters of the callback request;
* `tokenStatus`, `tokenGuid` — the token-endpoint exchange's HTTP status
  and its optional `xoauth_yahoo_guid` field;
* `socialGuid` — the guid extracted from the Social-API fallback
  (`none` covers a non-200 status or an absent field);
* `fantasyName` — the display name extracted from the Fantasy-API call
  (that call runs only when a guid is already known; the guard
  `if 'guid' in item and not yahoo_guid` inside it can then never fire).
When no source yields a truthy guid the route redirects with
`error=no_user_id` before touching the database; otherwise it runs
`get_or_create_user` (with `yahoo_email = None`) and `create_session` and
redirects with the session token. -/
def yahoo_callback (error code : Option String) (tokenStatus : Nat)
    (tokenGuid socialGuid fantasyName : Option String)
    (users : List UserRow) (sessions : List SessionRow)
    (newUserId : Nat) (newToken : String) (now : Int) :
    CallbackResult × List UserRow × List SessionRow :=
  if truthy error then (.errorRedirect (error.getD ""), users, sessions)
  else
    if ¬ truthy code then (.errorRedirect "no_code", users, sessions)
    else if tokenStatus ≠ 200 then
      (.errorRedirect "token_exchange_failed", users, sessions)
    else
      let yahoo_guid := if truthy tokenGuid then tokenGuid else socialGuid
      let yahoo_name := if truthy yahoo_guid then fantasyName else none
      if ¬ truthy yahoo_guid then (.errorRedirect "no_user_id", users, sessions)
      else
        let r := get_or_create_user users (yahoo_guid.getD "") none yahoo_name newUserId
        let s := create_session sessions r.1.id newToken now
        (.success s.1, r.2, s.2)

/-! ## A concrete instantiation of the library primitives

Used to evaluate the model on concrete inputs: the block cipher is list
reversal (a length- and byte-preserving involution on blocks) and the
byte-string codec maps each byte to the character with that code point. -/

/-- A concrete, executable `CryptoPrims` used for evaluating the model at
concrete inputs. -/
def bytePrims : CryptoPrims where
  aesEnc := List.reverse
  aesDec := List.reverse
  b64enc := fun bs => String.mk (bs.map Char.ofNat)
  b64dec := fun s => s.data.map Char.toNat

/-! ## Helper lemmas -/

theorem byte_isValidChar {n : Nat} (h : n < 256) : n.isValidChar :=
  Or.inl (by omega)

theorem char_toNat_ofNat {n : Nat} (h : n.isValidChar) :
    (Char.ofNat n).toNat = n := by
  unfold Char.ofNat Char.toNat
  split
  · simp [Char.ofNatAux, UInt32.toNat, BitVec.toNat_ofNatLt]
  · exact absurd h (by assumption)

theorem bytePrims_sound : bytePrims.Sound where
  aes_len := fun b h => by simpa [bytePrims] using h
  aes_bytes := fun b _ hb => by
    intro x hx
    exact hb x (by simpa [bytePrims] using hx)
  aes_inv := fun b _ => by simp [bytePrims]
  b64_inv := fun bs hb => by
    show (bs.map Char.ofNat).map Char.toNat = bs
    rw [List.map_map]
    induction bs with
    | nil => rfl
    | cons x xs ih =>
      have hx : x < 256 := hb x (List.mem_cons_self x xs)
      have hxs : IsBytes xs := fun y hy => hb y (List.mem_cons_of_mem x hy)
      simp only [List.map_cons, Function.comp_apply, ih hxs,
        char_toNat_ofNat (byte_isValidChar hx)]

theorem pad_length_mod (data : List Nat) : (pad data).length % 16 = 0 := by
  simp only [pad, List.length_append, List.length_replicate]
  omega

theorem pad_ne_nil (data : List Nat) : pad data ≠ [] := by
  simp only [pad]
  intro h
  have := congrArg List.length h
  simp only [List.length_append, List.length_replicate, List.length_nil] at this
  omega

theorem pad_bytes {data : List Nat} (h : IsBytes data) : IsBytes (pad data) := by
  intro x hx
  simp only [pad, List.mem_append] at hx
  rcases hx with hx | hx
  · exact h x hx
  · have := List.eq_of_mem_replicate hx
    omega

theorem unpad_pad (data : List Nat) : unpad (pad data) = some data := by
  have hn1 : 1 ≤ 16 - data.length % 16 := by omega
  have hlast : (pad data).getLast? = some (16 - data.length % 16) := by
    simp only [pad, List.getLast?_append, List.getLast?_replicate]
    rw [if_neg (by omega)]
    rfl
  have hlen : (pad data).length = data.length + (16 - data.length % 16) := by
    simp [pad]
  simp only [unpad, hlast]
  rw [if_pos]
  · congr 1
    have : (pad data).length - (16 - data.length % 16) = data.length := by omega
    rw [this]
    simpa only [pad] using List.take_left data _
  · refine ⟨pad_length_mod data, hn1, by omega, by omega, ?_⟩
    have : (pad data).length - (16 - data.length % 16) = data.length := by omega
    rw [this]
    have hdrop : (pad data).drop data.length =
        List.replicate (16 - data.length % 16) (16 - data.length % 16) := by
      simpa only [pad] using List.drop_left data _
    rw [hdrop]
    simp [List.all_eq_true]

theorem xorBytes_length (a b : List Nat) :
    (xorBytes a b).length = min a.length b.length := by
  simp [xorBytes]

theorem xorBytes_bytes {a b : List Nat} (ha : IsBytes a) (hb : IsBytes b) :
    IsBytes (xorBytes a b) := by
  induction a generalizing b with
  | nil => intro x hx; simp [xorBytes] at hx
  | cons x xs ih =>
    cases b with
    | nil => intro y hy; simp [xorBytes] at hy
    | cons y ys =>
      intro z hz
      simp only [xorBytes, List.zipWith_cons_cons, List.mem_cons] at hz
      rcases hz with hz | hz
      · subst hz
        have h256 : (256 : Nat) = 2 ^ 8 := by norm_num
        rw [h256]
        exact Nat.xor_lt_two_pow (by have := ha x (by simp); omega)
          (by have := hb y (by simp); omega)
      · exact ih (fun u hu => ha u (List.mem_cons_of_mem x hu))
          (fun u hu => hb u (List.mem_cons_of_mem y hu)) z hz

theorem xorBytes_cancel {a b : List Nat} (h : b.length ≤ a.length) :
    xorBytes a (xorBytes a b) = b := by
  induction a generalizing b with
  | nil =>
    have : b = [] := by
      cases b
      · rfl
      · simp at h
    simp [this, xorBytes]
  | cons x xs ih =>
    cases b with
    | nil => simp [xorBytes]
    | cons y ys =>
      have ht := ih (b := ys) (by simpa using h)
      simp only [xorBytes] at ht ⊢
      simp [List.zipWith_cons_cons, Nat.xor_cancel_left, ht]

theorem IsBytes_append {a b : List Nat} (ha : IsBytes a) (hb : IsBytes b) :
    IsBytes (a ++ b) := by
  intro x hx
  rcases List.mem_append.mp hx with h | h
  · exact ha x h
  · exact hb x h

theorem IsBytes_take {a : List Nat} (ha : IsBytes a) (n : Nat) :
    IsBytes (a.take n) :=
  fun x hx => ha x (List.take_subset n a hx)

theorem IsBytes_drop {a : List Nat} (ha : IsBytes a) (n : Nat) :
    IsBytes (a.drop n) :=
  fun x hx => ha x (List.drop_subset n a hx)

theorem take_len_append {a : Type} {n : Nat} (c r : List a)
    (h : c.length = n) : (c ++ r).take n = c := by
  subst h; exact List.take_left c r

theorem drop_len_append {a : Type} {n : Nat} (c r : List a)
    (h : c.length = n) : (c ++ r).drop n = r := by
  subst h; exact List.drop_left c r

theorem cbcEncryptGo_nil (E : List Nat → List Nat) (fuel : Nat)
    (prev : List Nat) : cbcEncryptGo E fuel prev [] = [] := by
  cases fuel <;> simp [cbcEncryptGo]

theorem cbcDecryptGo_nil (D : List Nat → List Nat) (fuel : Nat)
    (prev : List Nat) : cbcDecryptGo D fuel prev [] = [] := by
  cases fuel <;> simp [cbcDecryptGo]

theorem cbcEncryptGo_length (E : List Nat → List Nat)
    (hlen : ∀ b : List Nat, b.length = 16 → (E b).length = 16) :
    ∀ fuel (prev pt : List Nat), prev.length = 16 → pt.length % 16 = 0 →
      pt.length ≤ fuel → (cbcEncryptGo E fuel prev pt).length = pt.length := by
  intro fuel
  induction fuel with
  | zero =>
    intro prev pt _ _ hle
    have : pt = [] := List.eq_nil_of_length_eq_zero (by omega)
    simp [this, cbcEncryptGo]
  | succ fuel ih =>
    intro prev pt hprev hpt hle
    by_cases hnil : pt = []
    · simp [hnil, cbcEncryptGo]
    · have hpos : 0 < pt.length := List.length_pos.mpr hnil
      have h16 : 16 ≤ pt.length := by omega
      have htk : (pt.take 16).length = 16 := by
        simp [List.length_take]; omega
      have hx : (xorBytes prev (pt.take 16)).length = 16 := by
        rw [xorBytes_length, hprev, htk]; omega
      rw [cbcEncryptGo, if_neg hnil]
      rw [List.length_append, hlen _ hx,
        ih _ _ (hlen _ hx) (by simp [List.length_drop]; omega)
          (by simp [List.length_drop]; omega)]
      simp [List.length_drop]
      omega

theorem cbcEncryptGo_bytes (E : List Nat → List Nat)
    (hlen : ∀ b : List Nat, b.length = 16 → (E b).length = 16)
    (hbytes : ∀ b : List Nat, b.length = 16 → IsBytes b → IsBytes (E b)) :
    ∀ fuel (prev pt : List Nat), prev.length = 16 → IsBytes prev →
      pt.length % 16 = 0 → IsBytes pt →
      IsBytes (cbcEncryptGo E fuel prev pt) := by
  intro fuel
  induction fuel with
  | zero => intro prev pt _ _ _ _ x hx; simp [cbcEncryptGo] at hx
  | succ fuel ih =>
    intro prev pt hprev hprevb hpt hptb
    by_cases hnil : pt = []
    · intro x hx; simp [hnil, cbcEncryptGo] at hx
    · have hpos : 0 < pt.length := List.length_pos.mpr hnil
      have h16 : 16 ≤ pt.length := by omega
      have htk : (pt.take 16).length = 16 := by
        simp [List.length_take]; omega
      have hx : (xorBytes prev (pt.take 16)).length = 16 := by
        rw [xorBytes_length, hprev, htk]; omega
      have hcb : IsBytes (E (xorBytes prev (pt.take 16))) :=
        hbytes _ hx (xorBytes_bytes hprevb (IsBytes_take hptb 16))
      rw [cbcEncryptGo, if_neg hnil]
      exact IsBytes_append hcb
        (ih _ _ (hlen _ hx) hcb (by simp [List.length_drop]; omega)
          (IsBytes_drop hptb 16))

theorem cbcGo_roundtrip (E D : List Nat → List Nat)
    (hlen : ∀ b : List Nat, b.length = 16 → (E b).length = 16)
    (hinv : ∀ b : List Nat, b.length = 16 → D (E b) = b) :
    ∀ fe (prev pt : List Nat), prev.length = 16 → pt.length % 16 = 0 →
      pt.length ≤ fe → ∀ fd, pt.length ≤ fd →
      cbcDecryptGo D fd prev (cbcEncryptGo E fe prev pt) = pt := by
  intro fe
  induction fe with
  | zero =>
    intro prev pt _ _ hle fd _
    have : pt = [] := List.eq_nil_of_length_eq_zero (by omega)
    simp [this, cbcEncryptGo, cbcDecryptGo_nil]
  | succ fe ih =>
    intro prev pt hprev hpt hle fd hfd
    by_cases hnil : pt = []
    · simp [hnil, cbcEncryptGo, cbcDecryptGo_nil]
    · have hpos : 0 < pt.length := List.length_pos.mpr hnil
      have h16 : 16 ≤ pt.length := by omega
      have htk : (pt.take 16).length = 16 := by
        simp [List.length_take]; omega
      have hx : (xorBytes prev (pt.take 16)).length = 16 := by
        rw [xorBytes_length, hprev, htk]; omega
      have hclen : (E (xorBytes prev (pt.take 16))).length = 16 := hlen _ hx
      rw [cbcEncryptGo, if_neg hnil]
      obtain ⟨fd', rfl⟩ : ∃ fd', fd = fd' + 1 := ⟨fd - 1, by omega⟩
      rw [cbcDecryptGo, if_neg (by
        intro hc
        have := congrArg List.length hc
        simp [List.length_append, hclen] at this)]
      have htake : (E (xorBytes prev (pt.take 16)) ++
          cbcEncryptGo E fe (E (xorBytes prev (pt.take 16))) (pt.drop 16)).take 16 =
          E (xorBytes prev (pt.take 16)) := take_len_append _ _ hclen
      have hdrop : (E (xorBytes prev (pt.take 16)) ++
          cbcEncryptGo E fe (E (xorBytes prev (pt.take 16))) (pt.drop 16)).drop 16 =
          cbcEncryptGo E fe (E (xorBytes prev (pt.take 16))) (pt.drop 16) :=
        drop_len_append _ _ hclen
      rw [htake, hdrop, hinv _ hx, xorBytes_cancel (by rw [hprev, htk])]
      rw [ih _ _ hclen (by simp [List.length_drop]; omega)
        (by simp [List.length_drop]; omega) fd' (by simp [List.length_drop]; omega)]
      exact List.take_append_drop 16 pt

theorem cbcDecrypt_cbcEncrypt (E D : List Nat → List Nat)
    (hlen : ∀ b : List Nat, b.length = 16 → (E b).length = 16)
    (hinv : ∀ b : List Nat, b.length = 16 → D (E b) = b)
    (iv pt : List Nat) (hiv : iv.length = 16) (hpt : pt.length % 16 = 0) :
    cbcDecrypt D iv (cbcEncrypt E iv pt) = pt := by
  unfold cbcEncrypt cbcDecrypt
  rw [cbcEncryptGo_length E hlen _ _ _ hiv hpt (le_refl _)]
  exact cbcGo_roundtrip E D hlen hinv _ _ _ hiv hpt (le_refl _) _ (le_refl _)

/-! ## Claim theorems -/

/-- C7: For every plaintext `p`, decrypting with `decrypt_credential` the
(ciphertext, iv) pair returned by `encrypt_credential p` under the same
process-wide key yields exactly `p`. -/
theorem C7_decrypt_encrypt_roundtrip (P : CryptoPrims) (hP : P.Sound)
    (p iv : List Nat) (hp : IsBytes p) (hiv : iv.length = 16)
    (hivb : IsBytes iv) :
    decrypt_credential P (encrypt_credential P p iv).1
      (encrypt_credential P p iv).2 = some p := by
  have ctbytes : IsBytes (cbcEncrypt P.aesEnc iv (pad p)) := by
    unfold cbcEncrypt
    exact cbcEncryptGo_bytes _ hP.aes_len hP.aes_bytes _ _ _ hiv hivb
      (pad_length_mod p) (pad_bytes hp)
  unfold decrypt_credential encrypt_credential
  rw [hP.b64_inv iv hivb, hP.b64_inv _ ctbytes,
    cbcDecrypt_cbcEncrypt _ _ hP.aes_len hP.aes_inv _ _ hiv (pad_length_mod p)]
  exact unpad_pad p

/-- Witness for C7 at the plaintext "hi" (`[104, 105]`) and a concrete
16-byte IV. -/
theorem C7_witness :
    bytePrims.Sound ∧ IsBytes [104, 105] ∧
      (List.replicate 16 7 : List Nat).length = 16 ∧
      IsBytes (List.replicate 16 7) ∧
      decrypt_credential bytePrims
        (encrypt_credential bytePrims [104, 105] (List.replicate 16 7)).1
        (encrypt_credential bytePrims [104, 105] (List.replicate 16 7)).2 =
        some [104, 105] :=
  ⟨bytePrims_sound, by decide, by decide, by decide,
    C7_decrypt_encrypt_roundtrip bytePrims bytePrims_sound [104, 105]
      (List.replicate 16 7) (by decide) (by decide) (by decide)⟩

/-- C1: the claim says `get_kalshi_credentials` returns the stored pair
byte-for-byte after `save_kalshi_credentials` succeeds, and the source's own
comment says both credentials are encrypted with the same IV — but
`save_kalshi_credentials` encrypts the private key through
`encrypt_credential(private_key)` with no IV argument, so a second fresh IV
is drawn and discarded while only the first is stored. Decryption of the
private key then runs under the wrong IV: the first 16 bytes come back
corrupted (here `80 ^^^ 1 ^^^ 2 = 83`). Evaluated at identity 42 with
api_key "AK1" (`[65, 75, 49]`), a 17-byte private key `replicate 17 80`,
and distinct fresh IVs `replicate 16 1` and `replicate 16 2`. -/
theorem C1_saved_private_key_corrupted :
    get_kalshi_credentials bytePrims
        (save_kalshi_credentials bytePrims [] 42 [65, 75, 49]
          (List.replicate 17 80) (List.replicate 16 1) (List.replicate 16 2)) 42 ≠
      Except.ok (some ([65, 75, 49], List.replicate 17 80)) ∧
    get_kalshi_credentials bytePrims
        (save_kalshi_credentials bytePrims [] 42 [65, 75, 49]
          (List.replicate 17 80) (List.replicate 16 1) (List.replicate 16 2)) 42 =
      Except.ok (some ([65, 75, 49], List.replicate 16 83 ++ [80])) :=
  ⟨by decide, by decide⟩

theorem takeWhile_no_query (l : List Char) :
    '?' ∉ l.takeWhile (fun c => c ≠ '?') ∧
      (l.takeWhile (fun c => c ≠ '?') = l ∨
        ∃ rest, l = l.takeWhile (fun c => c ≠ '?') ++ '?' :: rest) := by
  induction l with
  | nil => simp
  | cons x xs ih =>
    by_cases hx : x = '?'
    · subst hx
      rw [List.takeWhile_cons]
      simp only [decide_eq_true_eq]
      rw [if_neg (by simp)]
      exact ⟨by simp, Or.inr ⟨xs, by simp⟩⟩
    · rw [List.takeWhile_cons]
      rw [if_pos (by simpa using hx)]
      refine ⟨?_, ?_⟩
      · intro hmem
        rcases List.mem_cons.mp hmem with h | h
        · exact hx h.symm
        · exact ih.1 h
      · rcases ih.2 with h | ⟨rest, hrest⟩
        · exact Or.inl (by rw [h])
        · exact Or.inr ⟨rest, by rw [List.cons_append, ← hrest]⟩

/-- C2, counterexample: the canonical message does NOT uppercase the HTTP
method — at `timestamp = "123"`, `method = "get"`, `path = "/a?b=c"` the
code signs `"123get/a"`, not the claimed `"123GET/a"` (the uppercase form
of the method is `"GET"`). -/
theorem C2_method_not_uppercased :
    createSignatureMessage "123" "get" "/a?b=c" = "123get/a" ∧
      createSignatureMessage "123" "get" "/a?b=c" ≠ "123GET/a" := by
  constructor
  · decide
  · decide

/-- C2, amended: the message `_create_signature` signs is exactly the
concatenation, in order, of the timestamp string, the HTTP method exactly
as supplied (the code performs no uppercasing; its callers pass uppercase
method names), and the request path with the first `'?'` and everything
after it stripped: the stripped path is a `'?'`-free prefix of the path and
the remainder, when any, starts with `'?'`. -/
theorem C2_amended_signature_message (timestamp method path : String) :
    (createSignatureMessage timestamp method path).data =
      timestamp.data ++ method.data ++ (stripQuery path).data ∧
    '?' ∉ (stripQuery path).data ∧
    ((stripQuery path).data = path.data ∨
      ∃ rest, path.data = (stripQuery path).data ++ '?' :: rest) := by
  refine ⟨?_, ?_, ?_⟩
  · show (timestamp ++ method ++ stripQuery path).data = _
    rw [String.data_append, String.data_append]
  · exact (takeWhile_no_query path.data).1
  · rcases (takeWhile_no_query path.data).2 with h | ⟨rest, hrest⟩
    · exact Or.inl h
    · exact Or.inr ⟨rest, hrest⟩

/-- C3, counterexample: the three authentication headers produced by
`_get_auth_headers` are named `KALSHI-ACCESS-KEY`, `KALSHI-ACCESS-SIGNATURE`
and `KALSHI-ACCESS-TIMESTAMP` — not the claimed bare `ACCESS-KEY`,
`ACCESS-SIGNATURE`, `ACCESS-TIMESTAMP`. -/
theorem C3_header_names_have_kalshi_prefixes :
    (get_auth_headers id (some "key1") true "123" "GET" "/p").map
        (fun hs => hs.map Prod.fst) =
      some ["KALSHI-ACCESS-KEY", "KALSHI-ACCESS-SIGNATURE",
        "KALSHI-ACCESS-TIMESTAMP"] ∧
    (get_auth_headers id (some "key1") true "123" "GET" "/p").map
        (fun hs => hs.map Prod.fst) ≠
      some ["ACCESS-KEY", "ACCESS-SIGNATURE", "ACCESS-TIMESTAMP"] := by
  constructor
  · decide
  · decide

/-- C3, amended: with an API key id and a loaded private key,
`_get_auth_headers` produces exactly three headers, named byte-for-byte
`KALSHI-ACCESS-KEY`, `KALSHI-ACCESS-SIGNATURE` and `KALSHI-ACCESS-TIMESTAMP`,
carrying the access-key identifier, the base64 signature of the canonical
message, and the timestamp respectively. -/
theorem C3_amended_auth_headers (sign : String → String)
    (k timestamp method path : String) (hk : k ≠ "") :
    get_auth_headers sign (some k) true timestamp method path =
      some [("KALSHI-ACCESS-KEY", k),
            ("KALSHI-ACCESS-SIGNATURE", create_signature sign timestamp method path),
            ("KALSHI-ACCESS-TIMESTAMP", timestamp)] := by
  unfold get_auth_headers
  rw [if_neg]
  · rfl
  · simp [truthy, hk]

/-- Witness for C3 (amended) at a concrete key id, timestamp, method and
path, with the signing primitive instantiated by the identity function. -/
theorem C3_amended_witness :
    ("key1" : String) ≠ "" ∧
      get_auth_headers id (some "key1") true "123" "GET" "/p" =
        some [("KALSHI-ACCESS-KEY", "key1"),
              ("KALSHI-ACCESS-SIGNATURE", create_signature id "123" "GET" "/p"),
              ("KALSHI-ACCESS-TIMESTAMP", "123")] :=
  ⟨by decide, C3_amended_auth_headers id "key1" "123" "GET" "/p" (by decide)⟩

/-- C4: `get_user_by_session` returns an owning identity if and only if a
session row with the token exists whose `expires_at` is strictly later than
now; when the token is absent or `expires_at <= now` it returns `none`
(expired and unknown tokens are indistinguishable). The referential
integrity hypothesis mirrors the `sessions.user_id -> users.id` foreign key
with `ON DELETE CASCADE`. -/
theorem C4_validate_session (users : List UserRow) (sessions : List SessionRow)
    (tok : String) (now : Int)
    (hRI : ∀ s ∈ sessions, ∃ u ∈ users, u.id = s.user_id) :
    (∀ u, get_user_by_session users sessions tok now = some u →
      ∃ s ∈ sessions, s.session_token = tok ∧ now < s.expires_at ∧
        u.id = s.user_id) ∧
    ((∃ s ∈ sessions, s.session_token = tok ∧ now < s.expires_at) →
      ∃ u, get_user_by_session users sessions tok now = some u) ∧
    ((¬ ∃ s ∈ sessions, s.session_token = tok ∧ now < s.expires_at) →
      get_user_by_session users sessions tok now = none) := by
  refine ⟨?_, ?_, ?_⟩
  · intro u hu
    unfold get_user_by_session at hu
    cases hfind : sessions.find?
        (fun s => s.session_token == tok && decide (now < s.expires_at)) with
    | none => rw [hfind] at hu; cases hu
    | some s =>
      rw [hfind] at hu
      have hp := List.find?_some hfind
      simp only [Bool.and_eq_true, beq_iff_eq, decide_eq_true_eq] at hp
      have hid := List.find?_some hu
      simp only [beq_iff_eq] at hid
      exact ⟨s, List.mem_of_find?_eq_some hfind, hp.1, hp.2, hid⟩
  · rintro ⟨s, hmem, htok, hexp⟩
    unfold get_user_by_session
    have hsome : (sessions.find?
        (fun s => s.session_token == tok && decide (now < s.expires_at))).isSome := by
      rw [List.find?_isSome]
      exact ⟨s, hmem, by simp [htok, hexp]⟩
    obtain ⟨s', hs'⟩ := Option.isSome_iff_exists.mp hsome
    rw [hs']
    obtain ⟨u, humem, huid⟩ := hRI s' (List.mem_of_find?_eq_some hs')
    have husome : (users.find? (fun u => u.id == s'.user_id)).isSome := by
      rw [List.find?_isSome]
      exact ⟨u, humem, by simp [huid]⟩
    obtain ⟨u', hu'⟩ := Option.isSome_iff_exists.mp husome
    exact ⟨u', hu'⟩
  · intro hno
    unfold get_user_by_session
    have : sessions.find?
        (fun s => s.session_token == tok && decide (now < s.expires_at)) = none := by
      rw [List.find?_eq_none]
      intro s hmem hp
      simp only [Bool.and_eq_true, beq_iff_eq, decide_eq_true_eq] at hp
      exact hno ⟨s, hmem, hp.1, hp.2⟩
    rw [this]

/-- Witness for C4 at a one-user, one-session store: token "T" not yet
expired at time 100 (expiry 200). -/
theorem C4_witness :
    (∀ s ∈ [(⟨7, "T", 200⟩ : SessionRow)],
      ∃ u ∈ [(⟨7, "G", none, none⟩ : UserRow)], u.id = s.user_id) ∧
    ((∀ u, get_user_by_session [⟨7, "G", none, none⟩] [⟨7, "T", 200⟩] "T" 100 =
        some u →
      ∃ s ∈ [(⟨7, "T", 200⟩ : SessionRow)], s.session_token = "T" ∧
        (100 : Int) < s.expires_at ∧ u.id = s.user_id) ∧
    ((∃ s ∈ [(⟨7, "T", 200⟩ : SessionRow)], s.session_token = "T" ∧
        (100 : Int) < s.expires_at) →
      ∃ u, get_user_by_session [⟨7, "G", none, none⟩] [⟨7, "T", 200⟩] "T" 100 =
        some u) ∧
    ((¬ ∃ s ∈ [(⟨7, "T", 200⟩ : SessionRow)], s.session_token = "T" ∧
        (100 : Int) < s.expires_at) →
      get_user_by_session [⟨7, "G", none, none⟩] [⟨7, "T", 200⟩] "T" 100 =
        none)) :=
  ⟨by decide,
    C4_validate_session [⟨7, "G", none, none⟩] [⟨7, "T", 200⟩] "T" 100
      (by decide)⟩

theorem find?_update_first {α : Type} (p : α → Bool) (l : List α) (u u' : α)
    (hu : l.find? p = some u) (hu' : p u' = true) :
    (l.map (fun v => if p v then u' else v)).find? p = some u' := by
  induction l with
  | nil => cases hu
  | cons x xs ih =>
    by_cases hx : p x = true
    · simp only [List.map_cons, if_pos hx]
      exact List.find?_cons_of_pos _ hu'
    · rw [List.find?_cons_of_neg _ hx] at hu
      simp only [List.map_cons, if_neg hx]
      rw [List.find?_cons_of_neg _ hx]
      exact ih hu

theorem find?_after_get_or_create (users : List UserRow) (guid : String)
    (e n : Option String) (i : Nat) :
    ((get_or_create_user users guid e n i).2).find?
        (fun u => u.yahoo_guid == guid) =
      some (get_or_create_user users guid e n i).1 := by
  unfold get_or_create_user
  cases hfind : users.find? (fun u => u.yahoo_guid == guid) with
  | some u =>
    simp only
    refine find?_update_first _ _ u _ hfind ?_
    have := List.find?_some hfind
    simpa using this
  | none =>
    simp only
    rw [List.find?_append, hfind, Option.none_or]
    exact List.find?_cons_of_pos _ (by simp)

theorem get_or_create_user_found (users : List UserRow) (guid : String)
    (e n : Option String) (i : Nat) (w : UserRow)
    (hw : users.find? (fun u => u.yahoo_guid == guid) = some w) :
    (get_or_create_user users guid e n i).1 =
      { w with
        yahoo_email := if truthy e then e else w.yahoo_email,
        yahoo_name := if truthy n then n else w.yahoo_name } := by
  unfold get_or_create_user
  rw [hw]

/-- C5, counterexample: calling `get_or_create_user` a second time with the
same guid but empty-string display values does NOT update the mutable
fields to the newly supplied values — the stored name stays `"Alice"`
instead of becoming `""` (Python's `if yahoo_name:` skips falsy values). -/
theorem C5_falsy_values_not_applied :
    (get_or_create_user
        (get_or_create_user [] "G" (some "a@x") (some "Alice") 1).2
        "G" (some "") (some "") 2).1.yahoo_name = some "Alice" ∧
      some "Alice" ≠ (some "" : Option String) := by
  constructor
  · decide
  · decide

/-- C5, amended: calling resolve (`get_or_create_user`) a second time with
the same external subject id returns a user with the same id as the first
call and an unchanged `yahoo_guid` (still equal to the subject id), and
updates each mutable display field to the newly supplied value only when
that value is truthy (non-None, non-empty); a falsy value leaves the prior
value unchanged. -/
theorem C5_amended_resolve_stable (users : List UserRow) (guid : String)
    (e1 n1 e2 n2 : Option String) (id1 id2 : Nat) :
    ((get_or_create_user
        (get_or_create_user users guid e1 n1 id1).2 guid e2 n2 id2).1.id =
      (get_or_create_user users guid e1 n1 id1).1.id) ∧
    ((get_or_create_user
        (get_or_create_user users guid e1 n1 id1).2 guid e2 n2 id2).1.yahoo_guid =
      (get_or_create_user users guid e1 n1 id1).1.yahoo_guid) ∧
    ((get_or_create_user users guid e1 n1 id1).1.yahoo_guid = guid) ∧
    ((get_or_create_user
        (get_or_create_user users guid e1 n1 id1).2 guid e2 n2 id2).1.yahoo_email =
      if truthy e2 then e2
      else (get_or_create_user users guid e1 n1 id1).1.yahoo_email) ∧
    ((get_or_create_user
        (get_or_create_user users guid e1 n1 id1).2 guid e2 n2 id2).1.yahoo_name =
      if truthy n2 then n2
      else (get_or_create_user users guid e1 n1 id1).1.yahoo_name) := by
  have hguid : (get_or_create_user users guid e1 n1 id1).1.yahoo_guid = guid := by
    have h := find?_after_get_or_create users guid e1 n1 id1
    have := List.find?_some h
    simpa using this
  have hfind := find?_after_get_or_create users guid e1 n1 id1
  have hkey := get_or_create_user_found (get_or_create_user users guid e1 n1 id1).2
    guid e2 n2 id2 _ hfind
  rw [hkey]
  exact ⟨rfl, rfl, hguid, rfl, rfl⟩

/-- C6: when neither the token response nor the Social-API fallback yields a
(truthy) subject identifier, the login callback redirects with the
identity-resolution error `no_user_id` and leaves both the `users` and the
`sessions` tables exactly as they were — no Identity row and no
SessionToken row is created. -/
theorem C6_no_subject_state_unchanged (code : Option String)
    (tokenGuid socialGuid fantasyName : Option String)
    (users : List UserRow) (sessions : List SessionRow)
    (newUserId : Nat) (newToken : String) (now : Int)
    (hcode : truthy code = true)
    (hg1 : truthy tokenGuid = false) (hg2 : truthy socialGuid = false) :
    yahoo_callback none code 200 tokenGuid socialGuid fantasyName
        users sessions newUserId newToken now =
      (.errorRedirect "no_user_id", users, sessions) := by
  unfold yahoo_callback
  rw [if_neg (by simp [truthy])]
  simp only [hcode, hg1, hg2]
  rw [if_neg (by simp), if_neg (by simp)]
  rw [if_pos (by simp [hg2])]

/-- Witness for C6: token response carries no guid and the Social-API
fallback returns the empty string; the one-user store and empty session
table are untouched. -/
theorem C6_witness :
    truthy (some "c") = true ∧ truthy none = false ∧
      truthy (some "") = false ∧
      yahoo_callback none (some "c") 200 none (some "") (some "Nm")
          [⟨1, "G", none, none⟩] [] 2 "tok" 1000 =
        (.errorRedirect "no_user_id", [⟨1, "G", none, none⟩], []) :=
  ⟨by decide, by decide, by decide,
    C6_no_subject_state_unchanged (some "c") none (some "") (some "Nm")
      [⟨1, "G", none, none⟩] [] 2 "tok" 1000 (by decide) (by decide) (by decide)⟩

/-- C8: `_is_token_valid` returns true exactly when an access token is
stored (truthy) and an expiry is stored with the current time strictly
earlier than the expiry minus the 5-minute safety margin; in particular it
returns false whenever the token or the expiry is missing. -/
theorem C8_token_validity (s : RefresherState) (now : Int) :
    is_token_valid s now = true ↔
      truthy s.access_token = true ∧
        ∃ e, s.token_expiry = some e ∧ now < e - 5 * 60 := by
  unfold is_token_valid
  by_cases hat : truthy s.access_token = true
  · cases he : s.token_expiry with
    | none => simp [hat, he]
    | some e => simp [hat, he]
  · simp [hat]

/-- C9: a successful refresh (status 200) reports success, replaces the
access token and the expiry (now + expires_in) from the response, keeps the
stored refresh token when the response omits one, and replaces it when the
response includes one. -/
theorem C9_refresh_token_retention (s : RefresherState)
    (resp : RefreshResponse) (now : Int) (h200 : resp.status = 200) :
    (refresh_access_token s resp now).1 = true ∧
    (refresh_access_token s resp now).2.access_token =
      some resp.access_token ∧
    (refresh_access_token s resp now).2.token_expiry =
      some (now + resp.expires_in) ∧
    (resp.refresh_token = none →
      (refresh_access_token s resp now).2.refresh_token = s.refresh_token) ∧
    (∀ v, resp.refresh_token = some v →
      (refresh_access_token s resp now).2.refresh_token = some v) := by
  unfold refresh_access_token
  rw [if_neg (by simp [h200])]
  refine ⟨rfl, rfl, rfl, ?_, ?_⟩
  · intro hn; simp [hn]
  · intro v hv; simp [hv]

/-- Witness for C9 at a concrete state and a 200 response that omits the
`refresh_token` field: the stored refresh token "R0" is retained. -/
theorem C9_witness :
    (⟨200, "A1", none, 3600⟩ : RefreshResponse).status = 200 ∧
      (refresh_access_token ⟨some "A0", some "R0", some 50⟩
        ⟨200, "A1", none, 3600⟩ 100).1 = true ∧
      (refresh_access_token ⟨some "A0", some "R0", some 50⟩
        ⟨200, "A1", none, 3600⟩ 100).2.access_token = some "A1" ∧
      (refresh_access_token ⟨some "A0", some "R0", some 50⟩
        ⟨200, "A1", none, 3600⟩ 100).2.token_expiry = some (100 + 3600) ∧
      (refresh_access_token ⟨some "A0", some "R0", some 50⟩
        ⟨200, "A1", none, 3600⟩ 100).2.refresh_token = some "R0" := by
  have h := C9_refresh_token_retention ⟨some "A0", some "R0", some 50⟩
    ⟨200, "A1", none, 3600⟩ 100 (by decide)
  exact ⟨by decide, h.1, h.2.1, h.2.2.1, h.2.2.2.1 rfl⟩

/-- C10, counterexample: `user_has_kalshi_credentials` and
`get_kalshi_credentials` do NOT always agree that a pair is returned:
`save_kalshi_credentials` itself can write a row on which the load raises.
With a single-block private key `[3]` and the two fresh IVs differing in
their last byte, the private key is decrypted under the wrong IV, the
corrupted block fails the PKCS#7 padding check, and `get` raises
(`.error ()`) — returning neither a pair nor none — while the exists-check
is true. -/
theorem C10_load_can_raise_while_exists_true :
    user_has_kalshi_credentials
        (save_kalshi_credentials bytePrims [] 7 [1, 2] [3]
          (List.replicate 16 1) (List.replicate 15 1 ++ [2])) 7 = true ∧
    get_kalshi_credentials bytePrims
        (save_kalshi_credentials bytePrims [] 7 [1, 2] [3]
          (List.replicate 16 1) (List.replicate 15 1 ++ [2])) 7 =
      .error () ∧
    ∀ pair : List Nat × List Nat,
      get_kalshi_credentials bytePrims
          (save_kalshi_credentials bytePrims [] 7 [1, 2] [3]
            (List.replicate 16 1) (List.replicate 15 1 ++ [2])) 7 ≠
        Except.ok (some pair) := by
  have herr : get_kalshi_credentials bytePrims
      (save_kalshi_credentials bytePrims [] 7 [1, 2] [3]
        (List.replicate 16 1) (List.replicate 15 1 ++ [2])) 7 =
      .error () := by decide
  refine ⟨by decide, herr, ?_⟩
  intro pair h
  rw [herr] at h
  exact Except.noConfusion h

/-- C10, amended: for every store state, `user_has_kalshi_credentials`
returns true exactly when `get_kalshi_credentials` returns something other
than none — a pair when the stored row decrypts, or a raised decryption
error otherwise (a state `save_kalshi_credentials` itself can create,
since it decrypts the private key under the wrong IV); equivalently, the
exists-check and the load always agree on whether a credentials row
exists. -/
theorem C10_amended_exists_agrees_on_absence (P : CryptoPrims)
    (creds : List KalshiCredRow) (uid : Nat) :
    user_has_kalshi_credentials creds uid = true ↔
      get_kalshi_credentials P creds uid ≠ .ok none := by
  unfold user_has_kalshi_credentials get_kalshi_credentials
  cases hfind : creds.find? (fun c => c.user_id == uid) with
  | none =>
    have hcount : creds.countP (fun c => c.user_id == uid) = 0 :=
      List.countP_eq_zero.mpr (List.find?_eq_none.mp hfind)
    simp [hcount]
  | some c =>
    have hmem := List.mem_of_find?_eq_some hfind
    have hpred := List.find?_some (p := fun c : KalshiCredRow => c.user_id == uid) hfind
    have hcount : 0 < creds.countP (fun c => c.user_id == uid) :=
      List.countP_pos_iff.mpr ⟨c, hmem, hpred⟩
    simp only [decide_eq_true_eq]
    constructor
    · intro _
      cases decrypt_credential P c.encrypted_api_key c.encryption_iv with
      | none => simp
      | some a =>
        cases decrypt_credential P c.encrypted_private_key c.encryption_iv with
        | none => simp
        | some p => simp
    · intro _
      simpa using hcount
